import Mathlib

/-!
Shallow embedding of `src/rust/src/coordinator/core/protocol.rs`: the
coordinator core state machine of a federated-learning system.

Modelling conventions:
* `u32` counters are modelled as `Nat`.  The only subtraction sites in the
  source are `-= 1` decrements (and one guarded subtraction in
  `number_of_clients_to_select`); `-= 1` is modelled by `u32SubOne`, which
  matches Rust release-mode wrapping semantics on the whole `u32` range
  `[0, 2^32)` (in particular `u32SubOne 0 = 2^32 - 1`: the subtraction
  underflows rather than saturating).
* the `f64` field `participants_ratio` is modelled as an exact rational
  (`ℚ`); `f64::ceil(x) as i64 as u32` becomes `⌈x⌉.toNat` and
  `(x) as i64 as u32` (truncation toward zero) becomes `⌊x⌋.toNat`, which
  agree with the Rust casts on the non-negative in-range values that the
  spec's domain for `participants_ratio` (the interval (0, 1]) produces.
* `ClientId` (an opaque UUID in the source) is modelled as `Nat`.
* `panic!` is modelled by returning `none` from an `Option`-valued
  function.
* the `VecDeque` event queue is modelled as a `List` with `push_back`
  being append on the right.
-/

/-- Client identifier; opaque in the source (`ClientId`), modelled as `Nat`. -/
abbrev ClientId := Nat

/-- Rust release-mode wrapping `u32` subtraction of one: `x -= 1`.
On `x = 0` the value wraps to `2^32 - 1`; for `1 ≤ x < 2^32` it is the
exact predecessor. -/
def u32SubOne (x : Nat) : Nat := if x = 0 then 2 ^ 32 - 1 else x - 1

/-- Represent the state of a client, as seen by the state machine. -/
inductive ClientState where
  | Unknown
  | Waiting
  | Selected
  | Done
  | DoneAndInactive
  | Ignored
deriving DecidableEq, Repr

/-- Events emitted by the state machine. -/
inductive Event where
  | Accept (id : Nat)
  | Remove (id : Nat)
  | SetState (id : Nat) (state : ClientState)
  | ResetAll
  | ResetHeartBeat (id : Nat)
  | RunAggregation
  | RunSelection (n : Nat)
  | EndRound (r : Nat)
deriving DecidableEq, Repr

/-- Response to a rendez-vous request. -/
inductive RendezVousResponse where
  | Accept
  | Reject
deriving DecidableEq, Repr

/-- Modelled from the spec (section 6.3) and the use sites in
`protocol.rs`: the heartbeat response enum lives in
`src/rust/src/coordinator/models.rs`, which is not part of the given
sources. -/
inductive HeartBeatResponse where
  | Reject
  | StandBy
  | Round (round : Nat)
  | Finish
deriving DecidableEq, Repr

/-- Response to a "start training" request. -/
inductive StartTrainingResponse where
  | Reject
  | Accept
deriving DecidableEq, Repr

/-- Modelled from the spec (section 6.1) and the test module of
`protocol.rs`: `FederatedLearningSettings` is declared in
`src/rust/src/coordinator/settings.rs`, which is not part of the given
sources; its four fields are visible in the tests. -/
structure FederatedLearningSettings where
  rounds : Nat
  participants_ratio : ℚ
  min_clients : Nat
  heartbeat_timeout : Nat
deriving DecidableEq, Repr

/-- The five population counters (`struct Counters`). -/
structure Counters where
  waiting : Nat
  selected : Nat
  done : Nat
  done_and_inactive : Nat
  ignored : Nat
deriving DecidableEq, Repr

/-- `Counters::new` / `Default::default()`. -/
def Counters.new : Counters := ⟨0, 0, 0, 0, 0⟩

/-- The state machine (`struct Protocol`). -/
structure Protocol where
  counters : Counters
  is_training_complete : Bool
  settings : FederatedLearningSettings
  current_round : Nat
  events : List Event
  waiting_for_aggregation : Bool
deriving DecidableEq, Repr

/-- Floor of `q * n`, truncated to `Nat`, computed on the rational's
numerator and denominator so that it reduces inside the kernel; the
lemma `mulFloorToNat_eq` identifies it with `⌊q * n⌋.toNat`. -/
def mulFloorToNat (q : ℚ) (n : Nat) : Nat :=
  ((q.num * (n : ℤ)) / (q.den : ℤ)).toNat

/-- Ceiling of `q * n`, truncated to `Nat`; the lemma `mulCeilToNat_eq`
identifies it with `⌈q * n⌉.toNat`. -/
def mulCeilToNat (q : ℚ) (n : Nat) : Nat :=
  (-(-(q.num * (n : ℤ)) / (q.den : ℤ))).toNat

/-- `FederatedLearningSettings::minimum_participants`:
`(self.participants_ratio * self.min_clients as f64) as i64 as u32`
(for the non-negative ratios of the spec's domain the `as i64` cast is
the floor). -/
def FederatedLearningSettings.minimum_participants
    (s : FederatedLearningSettings) : Nat :=
  mulFloorToNat s.participants_ratio s.min_clients

/-- `Protocol::emit_event`. -/
def Protocol.emit_event (p : Protocol) (event : Event) : Protocol :=
  { p with events := p.events ++ [event] }

/-- `Protocol::number_of_clients_to_select`.  The final subtraction
`total_to_select - total_participants` is a `u32` subtraction in the
source; under the guards it never underflows for
`participants_ratio ∈ [0, 1]`, so `Nat` truncated subtraction is used. -/
def Protocol.number_of_clients_to_select (p : Protocol) : Option Nat :=
  if p.is_training_complete || p.waiting_for_aggregation then none
  else
    let total_participants :=
      p.counters.selected + p.counters.done + p.counters.done_and_inactive
    if total_participants ≥ p.settings.minimum_participants then none
    else
      let total_clients := total_participants + p.counters.waiting
      if total_clients < p.settings.min_clients then none
      else
        let total_to_select :=
          mulCeilToNat p.settings.participants_ratio total_clients
        some (total_to_select - total_participants)

/-- `Protocol::maybe_start_selection`. -/
def Protocol.maybe_start_selection (p : Protocol) : Protocol :=
  match p.number_of_clients_to_select with
  | some count => p.emit_event (Event.RunSelection count)
  | none => p

/-- `Protocol::is_end_of_round`. -/
def Protocol.is_end_of_round (p : Protocol) : Bool :=
  decide (p.counters.selected = 0 ∧ p.number_of_clients_to_select = none)

/-- `Protocol::new`. -/
def Protocol.new (settings : FederatedLearningSettings) : Protocol :=
  { settings := settings
    counters := Counters.new
    is_training_complete := false
    waiting_for_aggregation := false
    current_round := 0
    events := [] }

/-- The `while` loop of `Protocol::select`: consume candidates while
`total_needed > 0`; a `Waiting` candidate is selected (`selected += 1`,
`waiting -= 1`, emit `SetState(id, Selected)`, need decreases), any
other candidate is discarded. -/
def selectLoop (total_needed : Nat) (candidates : List (Nat × ClientState))
    (p : Protocol) : Protocol :=
  match total_needed, candidates with
  | 0, _ => p
  | _ + 1, [] => p
  | n + 1, (id, ClientState.Waiting) :: rest =>
      selectLoop n rest
        (Protocol.emit_event
          { p with counters :=
              { p.counters with
                  selected := p.counters.selected + 1
                  waiting := u32SubOne p.counters.waiting } }
          (Event.SetState id ClientState.Selected))
  | n + 1, (_, _) :: rest => selectLoop (n + 1) rest p

/-- `Protocol::select` (the lazy candidate iterator is modelled as a
list). -/
def Protocol.select (p : Protocol) (candidates : List (Nat × ClientState)) :
    Protocol :=
  (match p.number_of_clients_to_select with
   | some total_needed => selectLoop total_needed candidates p
   | none => p).maybe_start_selection

/-- `Protocol::rendez_vous`.  Returns the response together with the
updated state (`&mut self` is made explicit). -/
def Protocol.rendez_vous (p : Protocol) (id : Nat)
    (client_state : ClientState) : RendezVousResponse × Protocol :=
  if p.is_training_complete then (RendezVousResponse.Reject, p)
  else
    let rp : RendezVousResponse × Protocol :=
      match client_state with
      | ClientState.Unknown =>
          (RendezVousResponse.Accept,
            Protocol.emit_event
              { p with counters :=
                  { p.counters with waiting := p.counters.waiting + 1 } }
              (Event.Accept id))
      | ClientState.Waiting => (RendezVousResponse.Accept, p)
      | ClientState.Selected =>
          (RendezVousResponse.Accept,
            Protocol.emit_event
              { p with counters :=
                  { p.counters with
                      selected := u32SubOne p.counters.selected
                      ignored := p.counters.ignored + 1 } }
              (Event.SetState id ClientState.Ignored))
      | ClientState.DoneAndInactive =>
          (RendezVousResponse.Accept,
            Protocol.emit_event
              { p with counters :=
                  { p.counters with ignored := p.counters.ignored + 1 } }
              (Event.SetState id ClientState.Ignored))
      | ClientState.Done =>
          (RendezVousResponse.Accept,
            Protocol.emit_event
              { p with counters :=
                  { p.counters with ignored := p.counters.ignored + 1 } }
              (Event.SetState id ClientState.Ignored))
      | ClientState.Ignored => (RendezVousResponse.Accept, p)
    (rp.1, rp.2.maybe_start_selection)

/-- `Protocol::heartbeat_timeout`.  The `panic!` arms (Unknown,
DoneAndInactive) are modelled as `none`. -/
def Protocol.heartbeat_timeout (p : Protocol) (id : Nat)
    (client_state : ClientState) : Option Protocol :=
  let p := p.emit_event (Event.Remove id)
  match client_state with
  | ClientState.Selected =>
      some (Protocol.maybe_start_selection
        { p with counters :=
            { p.counters with selected := u32SubOne p.counters.selected } })
  | ClientState.Waiting =>
      some (Protocol.maybe_start_selection
        { p with counters :=
            { p.counters with waiting := u32SubOne p.counters.waiting } })
  | ClientState.Unknown => none
  | ClientState.DoneAndInactive => none
  | ClientState.Done =>
      let p := p.emit_event (Event.SetState id ClientState.DoneAndInactive)
      some (Protocol.maybe_start_selection
        { p with counters :=
            { p.counters with
                done_and_inactive := p.counters.done_and_inactive + 1 } })
  | ClientState.Ignored =>
      some (Protocol.maybe_start_selection
        { p with counters :=
            { p.counters with ignored := u32SubOne p.counters.ignored } })

/-- `Protocol::heartbeat`. -/
def Protocol.heartbeat (p : Protocol) (id : Nat)
    (client_state : ClientState) : HeartBeatResponse × Protocol :=
  if p.is_training_complete then
    (HeartBeatResponse.Finish, p.emit_event (Event.ResetHeartBeat id))
  else
    match client_state with
    | ClientState.Unknown => (HeartBeatResponse.Reject, p)
    | ClientState.DoneAndInactive => (HeartBeatResponse.Reject, p)
    | ClientState.Ignored =>
        (HeartBeatResponse.StandBy, p.emit_event (Event.ResetHeartBeat id))
    | ClientState.Waiting =>
        (HeartBeatResponse.StandBy, p.emit_event (Event.ResetHeartBeat id))
    | ClientState.Done =>
        (HeartBeatResponse.StandBy, p.emit_event (Event.ResetHeartBeat id))
    | ClientState.Selected =>
        (HeartBeatResponse.Round p.current_round,
          p.emit_event (Event.ResetHeartBeat id))

/-- `Protocol::start_training`.  The source does not mutate the state,
so only the response is returned. -/
def Protocol.start_training (p : Protocol) (client_state : ClientState) :
    StartTrainingResponse :=
  if client_state = ClientState.Selected ∧ p.is_training_complete = false then
    StartTrainingResponse.Accept
  else StartTrainingResponse.Reject

/-- `Protocol::end_training`. -/
def Protocol.end_training (p : Protocol) (id : Nat) (success : Bool)
    (client_state : ClientState) : Protocol :=
  if p.is_training_complete || p.waiting_for_aggregation then p
  else if client_state = ClientState.Selected then
    let p :=
      { p with counters :=
          { p.counters with selected := u32SubOne p.counters.selected } }
    let p :=
      if success then
        let p := p.emit_event (Event.SetState id ClientState.Done)
        let p :=
          { p with counters :=
              { p.counters with done := p.counters.done + 1 } }
        if p.is_end_of_round then
          let p := p.emit_event Event.RunAggregation
          let p := { p with waiting_for_aggregation := true }
          let p := p.emit_event Event.ResetAll
          let p :=
            { p with counters :=
                { p.counters with
                    waiting := p.counters.waiting + p.counters.done } }
          let p :=
            { p with counters :=
                { p.counters with
                    waiting := p.counters.waiting + p.counters.ignored } }
          { p with counters :=
              { p.counters with
                  done_and_inactive := 0
                  done := 0
                  ignored := 0 } }
        else p
      else
        let p := p.emit_event (Event.SetState id ClientState.Ignored)
        { p with counters :=
            { p.counters with ignored := p.counters.ignored + 1 } }
    p.maybe_start_selection
  else p

/-- `Protocol::end_aggregation`. -/
def Protocol.end_aggregation (p : Protocol) (success : Bool) : Protocol :=
  if p.waiting_for_aggregation = false then p
  else
    let p : Protocol := { p with waiting_for_aggregation := false }
    let p : Protocol :=
      if success then
        let p := p.emit_event (Event.EndRound p.current_round)
        { p with current_round := p.current_round + 1 }
      else p
    if p.current_round = p.settings.rounds then
      { p with is_training_complete := true }
    else p.maybe_start_selection

/-- One entry-point call on the protocol driver, as listed in section
6.2 of the spec (the seven mutators). -/
inductive Input where
  | rendezVous (id : Nat) (state : ClientState)
  | heartbeat (id : Nat) (state : ClientState)
  | heartbeatTimeout (id : Nat) (state : ClientState)
  | startTraining (state : ClientState)
  | endTraining (id : Nat) (success : Bool) (state : ClientState)
  | endAggregation (success : Bool)
  | select (candidates : List (Nat × ClientState))
deriving DecidableEq, Repr

/-- Apply one entry-point call; `none` when the call panics. -/
def applyInput (inp : Input) (p : Protocol) : Option Protocol :=
  match inp with
  | Input.rendezVous id st => some (p.rendez_vous id st).2
  | Input.heartbeat id st => some (p.heartbeat id st).2
  | Input.heartbeatTimeout id st => p.heartbeat_timeout id st
  | Input.startTraining _ => some p
  | Input.endTraining id success st => some (p.end_training id success st)
  | Input.endAggregation success => some (p.end_aggregation success)
  | Input.select candidates => some (p.select candidates)

/-- Run a sequence of entry-point calls; `none` when some call panics. -/
def runInputs (l : List Input) (p : Protocol) : Option Protocol :=
  match l with
  | [] => some p
  | inp :: rest => (applyInput inp p).bind (runInputs rest)

/-- The settings used by the test module's `get_default_fl_settings`. -/
def defaultSettings : FederatedLearningSettings :=
  { rounds := 2, participants_ratio := 1, min_clients := 1,
    heartbeat_timeout := 15 }

/-- A rational times a natural, rewritten as an integer-over-natural
fraction. -/
theorem rat_mul_natCast_eq_div (q : ℚ) (n : Nat) :
    q * (n : ℚ) = ((q.num * (n : ℤ) : ℤ) : ℚ) / ((q.den : ℕ) : ℚ) := by
  have hden : ((q.den : ℕ) : ℚ) ≠ 0 := by
    exact_mod_cast q.den_nz
  rw [eq_div_iff hden]
  push_cast
  rw [mul_comm q (n : ℚ), mul_assoc, Rat.mul_den_eq_num]
  ring

/-- `mulFloorToNat` computes the floor of the product. -/
theorem mulFloorToNat_eq (q : ℚ) (n : Nat) :
    mulFloorToNat q n = (⌊q * (n : ℚ)⌋).toNat := by
  rw [mulFloorToNat, ← Rat.floor_intCast_div_natCast (q.num * (n : ℤ)) q.den,
    ← rat_mul_natCast_eq_div]

/-- `mulCeilToNat` computes the ceiling of the product. -/
theorem mulCeilToNat_eq (q : ℚ) (n : Nat) :
    mulCeilToNat q n = (⌈q * (n : ℚ)⌉).toNat := by
  have h : (Int.cast (-(q.num * (n : ℤ))) : ℚ) / ((q.den : ℕ) : ℚ)
      = -(q * (n : ℚ)) := by
    rw [rat_mul_natCast_eq_div q n]
    push_cast
    ring
  rw [mulCeilToNat, ← Rat.floor_intCast_div_natCast (-(q.num * (n : ℤ))) q.den,
    h, Int.floor_neg, neg_neg]

/-- Emitting an event changes only the queue: counters are kept. -/
theorem emit_event_counters (p : Protocol) (e : Event) :
    (p.emit_event e).counters = p.counters := rfl

/-- Emitting an event keeps the completion flag. -/
theorem emit_event_is_training_complete (p : Protocol) (e : Event) :
    (p.emit_event e).is_training_complete = p.is_training_complete := rfl

/-- Emitting an event keeps the aggregation flag. -/
theorem emit_event_waiting_for_aggregation (p : Protocol) (e : Event) :
    (p.emit_event e).waiting_for_aggregation = p.waiting_for_aggregation := rfl

/-- Emitting an event keeps the round index. -/
theorem emit_event_current_round (p : Protocol) (e : Event) :
    (p.emit_event e).current_round = p.current_round := rfl

/-- Emitting an event keeps the settings. -/
theorem emit_event_settings (p : Protocol) (e : Event) :
    (p.emit_event e).settings = p.settings := rfl

/-- The selection policy reads only counters, flags and settings, never
the event queue. -/
theorem number_of_clients_to_select_congr (p q : Protocol)
    (hc : q.counters = p.counters)
    (ht : q.is_training_complete = p.is_training_complete)
    (hw : q.waiting_for_aggregation = p.waiting_for_aggregation)
    (hs : q.settings = p.settings) :
    q.number_of_clients_to_select = p.number_of_clients_to_select := by
  unfold Protocol.number_of_clients_to_select
  rw [hc, ht, hw, hs]

/-- Emitting an event does not change the selection policy's output. -/
theorem number_of_clients_to_select_emit_event (p : Protocol) (e : Event) :
    (p.emit_event e).number_of_clients_to_select
      = p.number_of_clients_to_select :=
  number_of_clients_to_select_congr p (p.emit_event e) rfl rfl rfl rfl

/-- `maybe_start_selection` only appends to the queue: the appended
suffix is `[RunSelection n]` when the policy yields `some n`, nothing
otherwise. -/
theorem maybe_start_selection_events (p : Protocol) :
    (p.maybe_start_selection).events
      = p.events ++ (match p.number_of_clients_to_select with
          | some n => [Event.RunSelection n]
          | none => []) := by
  unfold Protocol.maybe_start_selection
  cases p.number_of_clients_to_select
  · simp [Protocol.emit_event]
  · simp [Protocol.emit_event]

/-- `maybe_start_selection` keeps the counters. -/
theorem maybe_start_selection_counters (p : Protocol) :
    (p.maybe_start_selection).counters = p.counters := by
  unfold Protocol.maybe_start_selection
  cases p.number_of_clients_to_select <;> rfl

/-- `maybe_start_selection` keeps the completion flag. -/
theorem maybe_start_selection_is_training_complete (p : Protocol) :
    (p.maybe_start_selection).is_training_complete
      = p.is_training_complete := by
  unfold Protocol.maybe_start_selection
  cases p.number_of_clients_to_select <;> rfl

/-- `maybe_start_selection` keeps the aggregation flag. -/
theorem maybe_start_selection_waiting_for_aggregation (p : Protocol) :
    (p.maybe_start_selection).waiting_for_aggregation
      = p.waiting_for_aggregation := by
  unfold Protocol.maybe_start_selection
  cases p.number_of_clients_to_select <;> rfl

/-- `maybe_start_selection` keeps the round index. -/
theorem maybe_start_selection_current_round (p : Protocol) :
    (p.maybe_start_selection).current_round = p.current_round := by
  unfold Protocol.maybe_start_selection
  cases p.number_of_clients_to_select <;> rfl

/-- `maybe_start_selection` keeps the settings. -/
theorem maybe_start_selection_settings (p : Protocol) :
    (p.maybe_start_selection).settings = p.settings := by
  unfold Protocol.maybe_start_selection
  cases p.number_of_clients_to_select <;> rfl

/-- Bounds on the selection policy's output: for a ratio in `[0, 1]`,
whenever `number_of_clients_to_select` yields `some n`, the count `n`
is at least 1 and at most the `waiting` counter. -/
theorem number_of_clients_to_select_bounds (p : Protocol)
    (h0 : 0 ≤ p.settings.participants_ratio)
    (h1 : p.settings.participants_ratio ≤ 1) (n : Nat)
    (h : p.number_of_clients_to_select = some n) :
    1 ≤ n ∧ n ≤ p.counters.waiting := by
  unfold Protocol.number_of_clients_to_select at h
  by_cases hflags : p.is_training_complete || p.waiting_for_aggregation
  · simp [hflags] at h
  rw [if_neg hflags] at h
  set tp := p.counters.selected + p.counters.done + p.counters.done_and_inactive
    with htp
  by_cases hmin : tp ≥ p.settings.minimum_participants
  · simp [hmin] at h
  rw [if_neg hmin] at h
  by_cases hpop : tp + p.counters.waiting < p.settings.min_clients
  · simp [hpop] at h
  rw [if_neg hpop] at h
  simp only [Option.some.injEq] at h
  set r := p.settings.participants_ratio with hr
  set T := tp + p.counters.waiting with hT
  have hmc : p.settings.min_clients ≤ T := Nat.le_of_not_lt hpop
  have hA : tp < mulCeilToNat r T := by
    have h2 : tp < FederatedLearningSettings.minimum_participants p.settings :=
      Nat.lt_of_not_le hmin
    rw [FederatedLearningSettings.minimum_participants, mulFloorToNat_eq] at h2
    rw [mulCeilToNat_eq]
    have hfc : ⌊r * (p.settings.min_clients : ℚ)⌋ ≤ ⌈r * (T : ℚ)⌉ := by
      refine le_trans (Int.floor_le_floor ?_) (Int.floor_le_ceil _)
      exact mul_le_mul_of_nonneg_left (by exact_mod_cast hmc) h0
    exact Nat.lt_of_lt_of_le h2 (Int.toNat_le_toNat hfc)
  have hB : mulCeilToNat r T ≤ T := by
    rw [mulCeilToNat_eq]
    have hceil : ⌈r * (T : ℚ)⌉ ≤ (T : ℤ) := by
      rw [Int.ceil_le]
      push_cast
      exact mul_le_of_le_one_left (by positivity) h1
    calc (⌈r * (T : ℚ)⌉).toNat ≤ ((T : ℤ)).toNat := Int.toNat_le_toNat hceil
      _ = T := Int.toNat_natCast T
  omega

/-- Any `RunSelection` found after `maybe_start_selection` either was
already queued before the whole entry point ran, or is the event the
final `maybe_start_selection` appended, in which case its count is
bounded by the final `waiting` counter. -/
theorem mem_runSelection_maybe_start_selection (p : Protocol)
    {q : Protocol} (l : List Event) (n : Nat)
    (hmem : Event.RunSelection n ∈ (q.maybe_start_selection).events)
    (hq : q.events = p.events ++ l)
    (hl : ∀ m : Nat, Event.RunSelection m ∉ l)
    (h0 : 0 ≤ q.settings.participants_ratio)
    (h1 : q.settings.participants_ratio ≤ 1) :
    Event.RunSelection n ∈ p.events
      ∨ (1 ≤ n ∧ n ≤ (q.maybe_start_selection).counters.waiting) := by
  rw [maybe_start_selection_events, hq, List.append_assoc, List.mem_append]
    at hmem
  rcases hmem with hmem | hmem
  · exact Or.inl hmem
  right
  rw [List.mem_append] at hmem
  rcases hmem with hmem | hmem
  · exact absurd hmem (hl n)
  rw [maybe_start_selection_counters]
  revert hmem
  cases hsel : q.number_of_clients_to_select with
  | none => intro hmem; simp at hmem
  | some m =>
      intro hmem
      simp only [List.mem_singleton, Event.RunSelection.injEq] at hmem
      subst hmem
      exact number_of_clients_to_select_bounds q h0 h1 n hsel

/-- The selection loop only appends `SetState(_, Selected)` events:
whatever it adds to the queue contains no `RunSelection`. -/
theorem selectLoop_events (n : Nat) (l : List (Nat × ClientState))
    (p : Protocol) :
    ∃ l2 : List Event, (selectLoop n l p).events = p.events ++ l2
      ∧ ∀ m : Nat, Event.RunSelection m ∉ l2 := by
  induction n, l, p using selectLoop.induct with
  | case1 p l => exact ⟨[], by simp [selectLoop]⟩
  | case2 p n => exact ⟨[], by simp [selectLoop]⟩
  | case3 p n id rest ih =>
      obtain ⟨l2, hev, hfree⟩ := ih
      refine ⟨Event.SetState id ClientState.Selected :: l2, ?_, ?_⟩
      · rw [selectLoop, hev]
        simp [Protocol.emit_event]
      · intro m hm
        rcases List.mem_cons.1 hm with h | h
        · exact Event.noConfusion h
        · exact hfree m h
  | case4 p n id st rest hne ih =>
      obtain ⟨l2, hev, hfree⟩ := ih
      refine ⟨l2, ?_, hfree⟩
      rw [selectLoop]
      exacts [hev, hne]

/-- The selection loop touches only counters and events: both flags,
the round index and the settings are unchanged. -/
theorem selectLoop_frame (n : Nat) (l : List (Nat × ClientState))
    (p : Protocol) :
    (selectLoop n l p).is_training_complete = p.is_training_complete
      ∧ (selectLoop n l p).waiting_for_aggregation = p.waiting_for_aggregation
      ∧ (selectLoop n l p).current_round = p.current_round
      ∧ (selectLoop n l p).settings = p.settings := by
  induction n, l, p using selectLoop.induct with
  | case1 p l => simp [selectLoop]
  | case2 p n => simp [selectLoop]
  | case3 p n id rest ih =>
      rw [selectLoop]
      exact ih
  | case4 p n id st rest hne ih =>
      rw [selectLoop]
      exacts [ih, hne]

/-- Every `RunSelection` queued by a `rendez_vous` call beyond the
events already present is within bounds for the resulting state. -/
theorem rendez_vous_runSelection (p : Protocol) (id : Nat)
    (st : ClientState) (h0 : 0 ≤ p.settings.participants_ratio)
    (h1 : p.settings.participants_ratio ≤ 1) (n : Nat)
    (hmem : Event.RunSelection n ∈ ((p.rendez_vous id st).2).events) :
    Event.RunSelection n ∈ p.events
      ∨ (1 ≤ n ∧ n ≤ ((p.rendez_vous id st).2).counters.waiting) := by
  unfold Protocol.rendez_vous at hmem ⊢
  by_cases hc : p.is_training_complete
  · rw [if_pos hc] at hmem
    exact Or.inl hmem
  rw [if_neg hc] at hmem ⊢
  cases st
  · exact mem_runSelection_maybe_start_selection p [Event.Accept id] n hmem rfl
      (by intro m hm; exact Event.noConfusion (List.mem_singleton.1 hm))
      h0 h1
  · exact mem_runSelection_maybe_start_selection p [] n hmem
      p.events.append_nil.symm
      (by intro m hm; exact absurd hm (List.not_mem_nil _)) h0 h1
  · exact mem_runSelection_maybe_start_selection p
      [Event.SetState id ClientState.Ignored] n hmem rfl
      (by intro m hm; exact Event.noConfusion (List.mem_singleton.1 hm))
      h0 h1
  · exact mem_runSelection_maybe_start_selection p
      [Event.SetState id ClientState.Ignored] n hmem rfl
      (by intro m hm; exact Event.noConfusion (List.mem_singleton.1 hm))
      h0 h1
  · exact mem_runSelection_maybe_start_selection p
      [Event.SetState id ClientState.Ignored] n hmem rfl
      (by intro m hm; exact Event.noConfusion (List.mem_singleton.1 hm))
      h0 h1
  · exact mem_runSelection_maybe_start_selection p [] n hmem
      p.events.append_nil.symm
      (by intro m hm; exact absurd hm (List.not_mem_nil _)) h0 h1

/-- `heartbeat` never queues a `RunSelection`. -/
theorem heartbeat_runSelection (p : Protocol) (id : Nat) (st : ClientState)
    (n : Nat)
    (hmem : Event.RunSelection n ∈ ((p.heartbeat id st).2).events) :
    Event.RunSelection n ∈ p.events := by
  unfold Protocol.heartbeat at hmem
  by_cases hc : p.is_training_complete
  · rw [if_pos hc] at hmem
    simp only [Protocol.emit_event, List.mem_append, List.mem_singleton]
      at hmem
    rcases hmem with h | h
    · exact h
    · exact Event.noConfusion h
  rw [if_neg hc] at hmem
  cases st <;>
    simp only [Protocol.emit_event, List.mem_append, List.mem_singleton]
      at hmem <;>
    first
      | exact hmem
      | (rcases hmem with h | h
         · exact h
         · exact Event.noConfusion h)

/-- Every `RunSelection` queued by a non-panicking `heartbeat_timeout`
call beyond the events already present is within bounds for the
resulting state. -/
theorem heartbeat_timeout_runSelection (p : Protocol) (id : Nat)
    (st : ClientState) (q : Protocol)
    (hq : p.heartbeat_timeout id st = some q)
    (h0 : 0 ≤ p.settings.participants_ratio)
    (h1 : p.settings.participants_ratio ≤ 1) (n : Nat)
    (hmem : Event.RunSelection n ∈ q.events) :
    Event.RunSelection n ∈ p.events
      ∨ (1 ≤ n ∧ n ≤ q.counters.waiting) := by
  unfold Protocol.heartbeat_timeout at hq
  cases st
  · exact Option.noConfusion hq
  · rw [Option.some.injEq] at hq
    subst hq
    exact mem_runSelection_maybe_start_selection p [Event.Remove id] n hmem
      rfl (by intro m hm; exact Event.noConfusion (List.mem_singleton.1 hm))
      h0 h1
  · rw [Option.some.injEq] at hq
    subst hq
    exact mem_runSelection_maybe_start_selection p [Event.Remove id] n hmem
      rfl (by intro m hm; exact Event.noConfusion (List.mem_singleton.1 hm))
      h0 h1
  · rw [Option.some.injEq] at hq
    subst hq
    refine mem_runSelection_maybe_start_selection p
      [Event.Remove id, Event.SetState id ClientState.DoneAndInactive] n hmem
      (by simp [Protocol.emit_event]) ?_ h0 h1
    intro m hm
    rcases List.mem_cons.1 hm with h | h
    · exact Event.noConfusion h
    · exact Event.noConfusion (List.mem_singleton.1 h)
  · exact Option.noConfusion hq
  · rw [Option.some.injEq] at hq
    subst hq
    exact mem_runSelection_maybe_start_selection p [Event.Remove id] n hmem
      rfl (by intro m hm; exact Event.noConfusion (List.mem_singleton.1 hm))
      h0 h1

/-- Every `RunSelection` queued by an `end_training` call beyond the
events already present is within bounds for the resulting state. -/
theorem end_training_runSelection (p : Protocol) (id : Nat)
    (success : Bool) (st : ClientState)
    (h0 : 0 ≤ p.settings.participants_ratio)
    (h1 : p.settings.participants_ratio ≤ 1) (n : Nat)
    (hmem : Event.RunSelection n ∈ (p.end_training id success st).events) :
    Event.RunSelection n ∈ p.events
      ∨ (1 ≤ n ∧ n ≤ (p.end_training id success st).counters.waiting) := by
  unfold Protocol.end_training at hmem ⊢
  by_cases hg : p.is_training_complete || p.waiting_for_aggregation
  · rw [if_pos hg] at hmem
    exact Or.inl hmem
  rw [if_neg hg] at hmem ⊢
  by_cases hst : st = ClientState.Selected
  case neg =>
    rw [if_neg hst] at hmem
    exact Or.inl hmem
  rw [if_pos hst] at hmem ⊢
  dsimp only at hmem ⊢
  by_cases hs : success = true
  case neg =>
    rw [if_neg hs] at hmem ⊢
    exact mem_runSelection_maybe_start_selection p
      [Event.SetState id ClientState.Ignored] n hmem rfl
      (by intro m hm; exact Event.noConfusion (List.mem_singleton.1 hm))
      h0 h1
  rw [if_pos hs] at hmem ⊢
  split at hmem
  next heor =>
    rw [if_pos heor]
    refine mem_runSelection_maybe_start_selection p
      [Event.SetState id ClientState.Done, Event.RunAggregation,
        Event.ResetAll] n hmem (by simp [Protocol.emit_event]) ?_ h0 h1
    intro m hm
    rcases List.mem_cons.1 hm with h | hm
    · exact Event.noConfusion h
    rcases List.mem_cons.1 hm with h | hm
    · exact Event.noConfusion h
    · exact Event.noConfusion (List.mem_singleton.1 hm)
  next heor =>
    rw [if_neg heor]
    exact mem_runSelection_maybe_start_selection p
      [Event.SetState id ClientState.Done] n hmem rfl
      (by intro m hm; exact Event.noConfusion (List.mem_singleton.1 hm))
      h0 h1

/-- Every `RunSelection` queued by an `end_aggregation` call beyond the
events already present is within bounds for the resulting state. -/
theorem end_aggregation_runSelection (p : Protocol) (success : Bool)
    (h0 : 0 ≤ p.settings.participants_ratio)
    (h1 : p.settings.participants_ratio ≤ 1) (n : Nat)
    (hmem : Event.RunSelection n ∈ (p.end_aggregation success).events) :
    Event.RunSelection n ∈ p.events
      ∨ (1 ≤ n ∧ n ≤ (p.end_aggregation success).counters.waiting) := by
  unfold Protocol.end_aggregation at hmem ⊢
  by_cases hw : p.waiting_for_aggregation = false
  · rw [if_pos hw] at hmem
    exact Or.inl hmem
  rw [if_neg hw] at hmem ⊢
  dsimp only at hmem ⊢
  by_cases hs : success = true
  case neg =>
    rw [if_neg hs] at hmem ⊢
    split at hmem
    next hlast =>
      rw [if_pos hlast]
      exact Or.inl hmem
    next hlast =>
      rw [if_neg hlast]
      exact mem_runSelection_maybe_start_selection p [] n hmem
        p.events.append_nil.symm
        (by intro m hm; exact absurd hm (List.not_mem_nil _)) h0 h1
  rw [if_pos hs] at hmem ⊢
  split at hmem
  next hlast =>
    rw [if_pos hlast]
    simp only [Protocol.emit_event, List.mem_append, List.mem_singleton]
      at hmem
    rcases hmem with hmem | hmem
    · exact Or.inl hmem
    · exact Event.noConfusion hmem
  next hlast =>
    rw [if_neg hlast]
    exact mem_runSelection_maybe_start_selection p
      [Event.EndRound p.current_round] n hmem rfl
      (by intro m hm; exact Event.noConfusion (List.mem_singleton.1 hm))
      h0 h1

/-- Every `RunSelection` queued by a `select` call beyond the events
already present is within bounds for the resulting state. -/
theorem select_runSelection (p : Protocol)
    (candidates : List (Nat × ClientState))
    (h0 : 0 ≤ p.settings.participants_ratio)
    (h1 : p.settings.participants_ratio ≤ 1) (n : Nat)
    (hmem : Event.RunSelection n ∈ (p.select candidates).events) :
    Event.RunSelection n ∈ p.events
      ∨ (1 ≤ n ∧ n ≤ (p.select candidates).counters.waiting) := by
  unfold Protocol.select at hmem ⊢
  cases hsel : p.number_of_clients_to_select with
  | none =>
      rw [hsel] at hmem
      dsimp only at hmem ⊢
      exact mem_runSelection_maybe_start_selection p [] n hmem
        p.events.append_nil.symm
        (by intro m hm; exact absurd hm (List.not_mem_nil _)) h0 h1
  | some total_needed =>
      rw [hsel] at hmem
      dsimp only at hmem ⊢
      obtain ⟨l2, hev, hfree⟩ := selectLoop_events total_needed candidates p
      refine mem_runSelection_maybe_start_selection p l2 n hmem hev hfree ?_ ?_
      · rw [(selectLoop_frame total_needed candidates p).2.2.2]
        exact h0
      · rw [(selectLoop_frame total_needed candidates p).2.2.2]
        exact h1

/-- C2: for every driver state and every entry-point call (with the
`participants_ratio` in the spec's domain, a real in (0, 1]), whenever a
`RunSelection n` event is appended to the outbound queue, `n ≥ 1` and
`n` is at most the value of the `waiting` counter at the moment of
emission (the final `waiting` value: every entry point re-evaluates the
selection policy after its counter mutations, so the counters at
emission time are the counters of the resulting state). -/
theorem claimC2 (inp : Input) (p q : Protocol)
    (h0 : 0 ≤ p.settings.participants_ratio)
    (h1 : p.settings.participants_ratio ≤ 1)
    (happ : applyInput inp p = some q) (n : Nat)
    (hmem : Event.RunSelection n ∈ q.events) :
    Event.RunSelection n ∈ p.events ∨ (1 ≤ n ∧ n ≤ q.counters.waiting) := by
  cases inp with
  | rendezVous id st =>
      rw [applyInput, Option.some.injEq] at happ
      subst happ
      exact rendez_vous_runSelection p id st h0 h1 n hmem
  | heartbeat id st =>
      rw [applyInput, Option.some.injEq] at happ
      subst happ
      exact Or.inl (heartbeat_runSelection p id st n hmem)
  | heartbeatTimeout id st =>
      exact heartbeat_timeout_runSelection p id st q happ h0 h1 n hmem
  | startTraining st =>
      rw [applyInput, Option.some.injEq] at happ
      subst happ
      exact Or.inl hmem
  | endTraining id success st =>
      rw [applyInput, Option.some.injEq] at happ
      subst happ
      exact end_training_runSelection p id success st h0 h1 n hmem
  | endAggregation success =>
      rw [applyInput, Option.some.injEq] at happ
      subst happ
      exact end_aggregation_runSelection p success h0 h1 n hmem
  | select candidates =>
      rw [applyInput, Option.some.injEq] at happ
      subst happ
      exact select_runSelection p candidates h0 h1 n hmem

/-- Witness for C2: a fresh driver with the default test settings
receives one rendez-vous from an unknown client; the `RunSelection 1`
it queues satisfies the bounds. -/
theorem claimC2_witness :
    Event.RunSelection 1 ∈ (Protocol.new defaultSettings).events
      ∨ (1 ≤ 1 ∧ 1 ≤ (((Protocol.new defaultSettings).rendez_vous 0
          ClientState.Unknown).2).counters.waiting) :=
  claimC2 (Input.rendezVous 0 ClientState.Unknown)
    (Protocol.new defaultSettings) _
    (by norm_num [Protocol.new, defaultSettings])
    (by norm_num [Protocol.new, defaultSettings]) rfl 1 (by decide)

/-- C5: for every driver state and client id, a heartbeat timeout for a
client asserted to be `Unknown` or `DoneAndInactive` panics (modelled
as `none`) rather than returning normally. -/
theorem claimC5 (p : Protocol) (id : Nat) :
    p.heartbeat_timeout id ClientState.Unknown = none
      ∧ p.heartbeat_timeout id ClientState.DoneAndInactive = none :=
  ⟨rfl, rfl⟩

/-- C7: whenever `waiting_for_aggregation` (or `is_training_complete`)
holds, `end_training` returns the state completely unchanged: no
counter, flag, round index or queued event is modified. -/
theorem claimC7 (p : Protocol) (id : Nat) (success : Bool)
    (client_state : ClientState)
    (h : p.waiting_for_aggregation = true ∨ p.is_training_complete = true) :
    p.end_training id success client_state = p := by
  unfold Protocol.end_training
  rcases h with h | h <;> simp [h]

/-- Witness for C7: a driver waiting for aggregation ignores an
`end_training` request. -/
theorem claimC7_witness :
    (Protocol.mk ⟨0, 1, 0, 0, 0⟩ false defaultSettings 0 [] true).end_training
        3 true ClientState.Selected
      = Protocol.mk ⟨0, 1, 0, 0, 0⟩ false defaultSettings 0 [] true :=
  claimC7 (Protocol.mk ⟨0, 1, 0, 0, 0⟩ false defaultSettings 0 [] true)
    3 true ClientState.Selected (Or.inl rfl)

/-- C4: once `is_training_complete` holds, every `rendez_vous` returns
`Reject` and emits nothing (the state is returned unchanged), every
`heartbeat` returns `Finish` emitting only `ResetHeartBeat(id)`, and no
entry point ever resets `is_training_complete` to false. -/
theorem claimC4 (p : Protocol) (h : p.is_training_complete = true) :
    (∀ (id : Nat) (st : ClientState),
        p.rendez_vous id st = (RendezVousResponse.Reject, p))
      ∧ (∀ (id : Nat) (st : ClientState),
          p.heartbeat id st
            = (HeartBeatResponse.Finish,
                p.emit_event (Event.ResetHeartBeat id)))
      ∧ (∀ (inp : Input) (q : Protocol),
          applyInput inp p = some q → q.is_training_complete = true) := by
  refine ⟨?_, ?_, ?_⟩
  · intro id st
    unfold Protocol.rendez_vous
    rw [if_pos h]
  · intro id st
    unfold Protocol.heartbeat
    rw [if_pos h]
  · intro inp q happ
    cases inp with
    | rendezVous id st =>
        rw [applyInput, Option.some.injEq] at happ
        subst happ
        unfold Protocol.rendez_vous
        rw [if_pos h]
        exact h
    | heartbeat id st =>
        rw [applyInput, Option.some.injEq] at happ
        subst happ
        unfold Protocol.heartbeat
        rw [if_pos h]
        exact h
    | heartbeatTimeout id st =>
        rw [applyInput] at happ
        unfold Protocol.heartbeat_timeout at happ
        cases st
        · exact Option.noConfusion happ
        · rw [Option.some.injEq] at happ
          subst happ
          rw [maybe_start_selection_is_training_complete]
          exact h
        · rw [Option.some.injEq] at happ
          subst happ
          rw [maybe_start_selection_is_training_complete]
          exact h
        · rw [Option.some.injEq] at happ
          subst happ
          rw [maybe_start_selection_is_training_complete]
          exact h
        · exact Option.noConfusion happ
        · rw [Option.some.injEq] at happ
          subst happ
          rw [maybe_start_selection_is_training_complete]
          exact h
    | startTraining st =>
        rw [applyInput, Option.some.injEq] at happ
        subst happ
        exact h
    | endTraining id success st =>
        rw [applyInput, Option.some.injEq] at happ
        subst happ
        unfold Protocol.end_training
        rw [if_pos (by rw [h]; rfl)]
        exact h
    | endAggregation success =>
        rw [applyInput, Option.some.injEq] at happ
        subst happ
        unfold Protocol.end_aggregation
        by_cases hw : p.waiting_for_aggregation = false
        · rw [if_pos hw]
          exact h
        · rw [if_neg hw]
          dsimp only
          by_cases hs : success = true
          · rw [if_pos hs]
            split
            · rfl
            · rw [maybe_start_selection_is_training_complete]
              exact h
          · rw [if_neg hs]
            split
            · rfl
            · rw [maybe_start_selection_is_training_complete]
              exact h
    | select candidates =>
        rw [applyInput, Option.some.injEq] at happ
        subst happ
        unfold Protocol.select
        rw [maybe_start_selection_is_training_complete]
        cases hsel : p.number_of_clients_to_select with
        | none => exact h
        | some total_needed =>
            dsimp only
            rw [(selectLoop_frame total_needed candidates p).1]
            exact h

/-- Witness for C4: a completed driver rejects a rendez-vous, answers a
heartbeat with `Finish`, and stays complete across an entry-point
call. -/
theorem claimC4_witness :
    ((Protocol.mk ⟨0, 0, 0, 0, 0⟩ true defaultSettings 2 [] false).rendez_vous
          5 ClientState.Waiting
        = (RendezVousResponse.Reject,
            Protocol.mk ⟨0, 0, 0, 0, 0⟩ true defaultSettings 2 [] false))
      ∧ ((Protocol.mk ⟨0, 0, 0, 0, 0⟩ true defaultSettings 2 [] false).heartbeat
            5 ClientState.Waiting
          = (HeartBeatResponse.Finish,
              (Protocol.mk ⟨0, 0, 0, 0, 0⟩ true defaultSettings 2 []
                false).emit_event (Event.ResetHeartBeat 5)))
      ∧ ((Protocol.mk ⟨0, 0, 0, 0, 0⟩ true defaultSettings 2 []
            false).end_training 5 true ClientState.Selected).is_training_complete
          = true :=
  ⟨(claimC4 (Protocol.mk ⟨0, 0, 0, 0, 0⟩ true defaultSettings 2 [] false)
      rfl).1 5 ClientState.Waiting,
    (claimC4 (Protocol.mk ⟨0, 0, 0, 0, 0⟩ true defaultSettings 2 [] false)
      rfl).2.1 5 ClientState.Waiting,
    (claimC4 (Protocol.mk ⟨0, 0, 0, 0, 0⟩ true defaultSettings 2 [] false)
      rfl).2.2 (Input.endTraining 5 true ClientState.Selected) _ rfl⟩

/-- C3: with `is_training_complete` false, `heartbeat_timeout(id, Done)`
keeps the `done` counter, increments `done_and_inactive`, and the first
two events it appends are `Remove(id)` then
`SetState(id, DoneAndInactive)`; concretely, from counters `{done:1}`
under the default test settings the resulting counters are
`{done:1, done_and_inactive:1}` and the queue is exactly
`[Remove(id), SetState(id, DoneAndInactive)]`. -/
theorem claimC3 :
    (∀ (p : Protocol) (id : Nat), p.is_training_complete = false →
      ((p.heartbeat_timeout id ClientState.Done).map
          (fun q => q.counters.done) = some p.counters.done)
        ∧ ((p.heartbeat_timeout id ClientState.Done).map
            (fun q => q.counters.done_and_inactive)
              = some (p.counters.done_and_inactive + 1))
        ∧ ((p.heartbeat_timeout id ClientState.Done).map
            (fun q => q.events.take (p.events.length + 2))
              = some (p.events
                  ++ [Event.Remove id,
                      Event.SetState id ClientState.DoneAndInactive])))
      ∧ (Protocol.mk ⟨0, 0, 1, 0, 0⟩ false defaultSettings 0 []
            false).heartbeat_timeout 0 ClientState.Done
          = some (Protocol.mk ⟨0, 0, 1, 1, 0⟩ false defaultSettings 0
              [Event.Remove 0, Event.SetState 0 ClientState.DoneAndInactive]
              false) := by
  constructor
  · intro p id _
    unfold Protocol.heartbeat_timeout
    simp only [Option.map_some', Option.some.injEq]
    refine ⟨?_, ?_, ?_⟩
    · rw [maybe_start_selection_counters]
      rfl
    · rw [maybe_start_selection_counters]
      rfl
    · rw [maybe_start_selection_events]
      show ((p.events ++ [Event.Remove id]
          ++ [Event.SetState id ClientState.DoneAndInactive]) ++ _).take
            (p.events.length + 2) = _
      rw [List.take_left' (by simp)]
      simp
  · decide

/-- Witness for C3: the general statement applied to the preloaded
`{done:1}` state of end-to-end scenario 3. -/
theorem claimC3_witness :
    (((Protocol.mk ⟨0, 0, 1, 0, 0⟩ false defaultSettings 0 []
          false).heartbeat_timeout 0 ClientState.Done).map
        (fun q => q.counters.done) = some 1)
      ∧ (((Protocol.mk ⟨0, 0, 1, 0, 0⟩ false defaultSettings 0 []
            false).heartbeat_timeout 0 ClientState.Done).map
          (fun q => q.counters.done_and_inactive) = some 1)
      ∧ (((Protocol.mk ⟨0, 0, 1, 0, 0⟩ false defaultSettings 0 []
            false).heartbeat_timeout 0 ClientState.Done).map
          (fun q => q.events.take 2)
            = some [Event.Remove 0,
                Event.SetState 0 ClientState.DoneAndInactive]) :=
  claimC3.1 (Protocol.mk ⟨0, 0, 1, 0, 0⟩ false defaultSettings 0 [] false)
    0 rfl

/-- When `waiting_for_aggregation` is set the selection policy selects
nobody, so `maybe_start_selection` is the identity. -/
theorem maybe_start_selection_of_wfa (q : Protocol)
    (h : q.waiting_for_aggregation = true) :
    q.maybe_start_selection = q := by
  unfold Protocol.maybe_start_selection Protocol.number_of_clients_to_select
  rw [h]
  simp

/-- The state at which a successful `end_training(id, true, Selected)`
call evaluates the end-of-round predicate: `selected` decremented and
`done` incremented (the queued events play no role in the predicate). -/
def endTrainingMid (p : Protocol) : Protocol :=
  { p with counters :=
      { p.counters with
          selected := p.counters.selected - 1
          done := p.counters.done + 1 } }

/-- C1: with both flags clear and at least one selected client,
`end_training(id, true, Selected)` decrements `selected`, leaves
`current_round` unchanged and first emits `SetState(id, Done)`; if at
that point `selected = 0` and the selection policy would select nobody
(the end-of-round predicate on the intermediate state), it additionally
emits `RunAggregation` then `ResetAll`, sets `waiting_for_aggregation`,
folds the `done` and `ignored` counts into `waiting` and zeroes `done`,
`done_and_inactive` and `ignored`; otherwise `done` is incremented. -/
theorem claimC1 (p : Protocol) (id : Nat)
    (hc : p.is_training_complete = false)
    (hw : p.waiting_for_aggregation = false)
    (hs : 1 ≤ p.counters.selected) :
    (p.end_training id true ClientState.Selected).counters.selected
        = p.counters.selected - 1
      ∧ (p.end_training id true ClientState.Selected).current_round
          = p.current_round
      ∧ (p.end_training id true ClientState.Selected).events.take
            (p.events.length + 1)
          = p.events ++ [Event.SetState id ClientState.Done]
      ∧ ((endTrainingMid p).is_end_of_round = true →
          (p.end_training id true ClientState.Selected).counters
              = ⟨p.counters.waiting + (p.counters.done + 1)
                  + p.counters.ignored, 0, 0, 0, 0⟩
            ∧ (p.end_training id true
                ClientState.Selected).waiting_for_aggregation = true
            ∧ (p.end_training id true ClientState.Selected).events
                = p.events ++ [Event.SetState id ClientState.Done,
                    Event.RunAggregation, Event.ResetAll])
      ∧ ((endTrainingMid p).is_end_of_round = false →
          (p.end_training id true ClientState.Selected).counters.done
              = p.counters.done + 1) := by
  have hsub : u32SubOne p.counters.selected = p.counters.selected - 1 := by
    unfold u32SubOne
    rw [if_neg (by omega)]
  unfold Protocol.end_training
  rw [if_neg (by simp [hc, hw]), if_pos rfl]
  dsimp only
  rw [if_pos rfl, hsub]
  split
  next heor_raw =>
    have heor : (endTrainingMid p).is_end_of_round = true := heor_raw
    rw [maybe_start_selection_of_wfa]
    · refine ⟨rfl, rfl, ?_, ?_, ?_⟩
      · show ((p.events ++ [Event.SetState id ClientState.Done]
            ++ [Event.RunAggregation] ++ [Event.ResetAll])).take
              (p.events.length + 1) = _
        rw [List.append_assoc (p.events ++ [Event.SetState id ClientState.Done]),
          List.take_left' (by simp)]
      · intro _
        refine ⟨?_, rfl, ?_⟩
        · have h0 : p.counters.selected - 1 = 0 :=
            (of_decide_eq_true heor).1
          show Counters.mk
              (p.counters.waiting + (p.counters.done + 1)
                + p.counters.ignored) (p.counters.selected - 1) 0 0 0 = _
          rw [h0]
        · show ((p.events ++ [Event.SetState id ClientState.Done]
              ++ [Event.RunAggregation] ++ [Event.ResetAll])) = _
          simp
      · intro hne
        rw [heor] at hne
        exact Bool.noConfusion hne
    · rfl
  next heor_raw =>
    have heor : (endTrainingMid p).is_end_of_round = false := by
      cases h : (endTrainingMid p).is_end_of_round
      · rfl
      · exact absurd h heor_raw
    refine ⟨?_, ?_, ?_, ?_, ?_⟩
    · rw [maybe_start_selection_counters]
      rfl
    · rw [maybe_start_selection_current_round]
      rfl
    · rw [maybe_start_selection_events,
        List.take_left' (by simp [Protocol.emit_event])]
      simp [Protocol.emit_event]
    · intro hD
      rw [heor] at hD
      exact Bool.noConfusion hD
    · intro _
      rw [maybe_start_selection_counters]
      rfl

/-- Witness for C1: seed scenario 4 — settings `{rounds:2, ratio:1.0,
min_clients:1}`, round 1, counters `{selected:1, done:5,
done_and_inactive:3, ignored:2}`; the successful `end_training`
completes the round. -/
theorem claimC1_witness :
    ((Protocol.mk ⟨0, 1, 5, 3, 2⟩ false defaultSettings 1 []
          false).end_training 0 true ClientState.Selected).counters
        = ⟨8, 0, 0, 0, 0⟩
      ∧ ((Protocol.mk ⟨0, 1, 5, 3, 2⟩ false defaultSettings 1 []
            false).end_training 0 true
              ClientState.Selected).waiting_for_aggregation = true
      ∧ ((Protocol.mk ⟨0, 1, 5, 3, 2⟩ false defaultSettings 1 []
            false).end_training 0 true ClientState.Selected).events
          = [Event.SetState 0 ClientState.Done, Event.RunAggregation,
              Event.ResetAll] :=
  (claimC1 (Protocol.mk ⟨0, 1, 5, 3, 2⟩ false defaultSettings 1 [] false) 0
    rfl rfl (by decide)).2.2.2.1 (by decide)

/-- When `is_training_complete` is set the selection policy selects
nobody. -/
theorem number_of_clients_to_select_of_complete (q : Protocol)
    (h : q.is_training_complete = true) :
    q.number_of_clients_to_select = none := by
  unfold Protocol.number_of_clients_to_select
  rw [h]
  simp

/-- When the selection policy selects nobody, `maybe_start_selection`
is the identity. -/
theorem maybe_start_selection_of_none (q : Protocol)
    (h : q.number_of_clients_to_select = none) :
    q.maybe_start_selection = q := by
  unfold Protocol.maybe_start_selection
  rw [h]

/-- Counterexample to C8 as stated: with `participants_ratio = 1.0` and
`min_clients = 1` (zero participants, both flags clear), a fresh driver
that admits two clients emits a second `RunSelection` at the moment the
`waiting` counter is 2 — selection does not fire only when
`waiting == min_clients`. -/
theorem claimC8_counterexample :
    (((Protocol.new defaultSettings).rendez_vous 0
            ClientState.Unknown).2.rendez_vous 1 ClientState.Unknown).2.events
        = [Event.Accept 0, Event.RunSelection 1, Event.Accept 1,
            Event.RunSelection 2]
      ∧ (((Protocol.new defaultSettings).rendez_vous 0
            ClientState.Unknown).2.rendez_vous 1
              ClientState.Unknown).2.counters.waiting = 2
      ∧ defaultSettings.min_clients = 1 := by decide

/-- C8 (amended): with `participants_ratio = 1.0`, `min_clients = n ≥ 1`,
both flags clear and zero current participants, the selection policy
fires exactly when `waiting ≥ n`, and the emitted `RunSelection`
requests all `waiting` clients (in particular all `n` of them when
`waiting = n`). -/
theorem claimC8 (settings : FederatedLearningSettings) (n : Nat)
    (hratio : settings.participants_ratio = 1)
    (hmc : settings.min_clients = n) (hn : 1 ≤ n)
    (p : Protocol) (hset : p.settings = settings)
    (hc : p.is_training_complete = false)
    (hw : p.waiting_for_aggregation = false)
    (hsel : p.counters.selected = 0) (hdone : p.counters.done = 0)
    (hdai : p.counters.done_and_inactive = 0) :
    p.number_of_clients_to_select
      = if n ≤ p.counters.waiting then some p.counters.waiting else none := by
  have hfloor : mulFloorToNat 1 n = n := by
    rw [mulFloorToNat_eq, one_mul, Int.floor_natCast, Int.toNat_natCast]
  have hceil : mulCeilToNat 1 p.counters.waiting = p.counters.waiting := by
    rw [mulCeilToNat_eq, one_mul, Int.ceil_natCast, Int.toNat_natCast]
  unfold Protocol.number_of_clients_to_select
    FederatedLearningSettings.minimum_participants
  rw [hc, hw, hsel, hdone, hdai, hset, hratio, hmc, hfloor]
  dsimp only
  rw [if_neg (by simp)]
  simp only [Nat.zero_add]
  rw [hceil, Nat.sub_zero]
  rw [if_neg (by omega)]
  by_cases hcase : p.counters.waiting < n
  · rw [if_pos hcase, if_neg (by omega)]
  · rw [if_neg hcase, if_pos (by omega)]

/-- Witness for C8 (amended): `min_clients = 1`, one waiting client —
the policy selects that one client. -/
theorem claimC8_witness :
    (Protocol.mk ⟨1, 0, 0, 0, 0⟩ false defaultSettings 0 []
        false).number_of_clients_to_select
      = if 1 ≤ 1 then some 1 else none :=
  claimC8 defaultSettings 1 rfl rfl (by decide)
    (Protocol.mk ⟨1, 0, 0, 0, 0⟩ false defaultSettings 0 [] false)
    rfl rfl rfl rfl rfl rfl

/-- Counterexample to C9 as stated: when the selection policy is firing,
the second `rendez_vous(id, Waiting)` call appends a duplicate
`RunSelection`, so the outbound queue contents differ from a single
call. -/
theorem claimC9_counterexample :
    (((Protocol.mk ⟨1, 0, 0, 0, 0⟩ false defaultSettings 0 []
            false).rendez_vous 7 ClientState.Waiting).2.rendez_vous 7
              ClientState.Waiting).2.events
      ≠ ((Protocol.mk ⟨1, 0, 0, 0, 0⟩ false defaultSettings 0 []
            false).rendez_vous 7 ClientState.Waiting).2.events := by decide

/-- C9 (amended): two successive `rendez_vous(id, Waiting)` calls return
the same reply and produce the same counters, flags and round index as
a single call; the queues also agree whenever the selection policy
yields nothing, but when it yields `some c` the second call appends one
extra duplicate `RunSelection c` event. -/
theorem claimC9 (p : Protocol) (id : Nat) :
    ((p.rendez_vous id ClientState.Waiting).2.rendez_vous id
          ClientState.Waiting).1
        = (p.rendez_vous id ClientState.Waiting).1
      ∧ ((p.rendez_vous id ClientState.Waiting).2.rendez_vous id
            ClientState.Waiting).2.counters
          = (p.rendez_vous id ClientState.Waiting).2.counters
      ∧ ((p.rendez_vous id ClientState.Waiting).2.rendez_vous id
            ClientState.Waiting).2.is_training_complete
          = (p.rendez_vous id ClientState.Waiting).2.is_training_complete
      ∧ ((p.rendez_vous id ClientState.Waiting).2.rendez_vous id
            ClientState.Waiting).2.waiting_for_aggregation
          = (p.rendez_vous id ClientState.Waiting).2.waiting_for_aggregation
      ∧ ((p.rendez_vous id ClientState.Waiting).2.rendez_vous id
            ClientState.Waiting).2.current_round
          = (p.rendez_vous id ClientState.Waiting).2.current_round
      ∧ (p.number_of_clients_to_select = none →
          ((p.rendez_vous id ClientState.Waiting).2.rendez_vous id
              ClientState.Waiting).2
            = (p.rendez_vous id ClientState.Waiting).2)
      ∧ (∀ c : Nat, p.number_of_clients_to_select = some c →
          ((p.rendez_vous id ClientState.Waiting).2.rendez_vous id
              ClientState.Waiting).2.events
            = (p.rendez_vous id ClientState.Waiting).2.events
                ++ [Event.RunSelection c]) := by
  cases hc : p.is_training_complete with
  | true =>
      have h1 : p.rendez_vous id ClientState.Waiting
          = (RendezVousResponse.Reject, p) := by
        unfold Protocol.rendez_vous
        rw [if_pos hc]
      rw [h1]
      rw [h1]
      refine ⟨rfl, rfl, rfl, rfl, rfl, fun _ => rfl, ?_⟩
      intro c hcon
      rw [number_of_clients_to_select_of_complete p hc] at hcon
      exact Option.noConfusion hcon
  | false =>
      have h1 : p.rendez_vous id ClientState.Waiting
          = (RendezVousResponse.Accept, p.maybe_start_selection) := by
        unfold Protocol.rendez_vous
        rw [if_neg (by rw [hc]; exact Bool.false_ne_true)]
      have hpol : (p.maybe_start_selection).number_of_clients_to_select
          = p.number_of_clients_to_select :=
        number_of_clients_to_select_congr p p.maybe_start_selection
          (maybe_start_selection_counters p)
          (maybe_start_selection_is_training_complete p)
          (maybe_start_selection_waiting_for_aggregation p)
          (maybe_start_selection_settings p)
      have h2 : (p.maybe_start_selection).rendez_vous id ClientState.Waiting
          = (RendezVousResponse.Accept,
              (p.maybe_start_selection).maybe_start_selection) := by
        unfold Protocol.rendez_vous
        rw [if_neg (by
          rw [maybe_start_selection_is_training_complete, hc]
          exact Bool.false_ne_true)]
      rw [h1]
      rw [h2]
      refine ⟨rfl, ?_, ?_, ?_, ?_, ?_, ?_⟩
      · rw [maybe_start_selection_counters]
      · rw [maybe_start_selection_is_training_complete]
      · rw [maybe_start_selection_waiting_for_aggregation]
      · rw [maybe_start_selection_current_round]
      · intro hnone
        exact maybe_start_selection_of_none _ (hpol.trans hnone)
      · intro c hsome
        rw [maybe_start_selection_events, hpol, hsome]

/-- Witness for C9 (amended): with the policy firing (`some 1`), the
second call appends exactly one duplicate `RunSelection 1`. -/
theorem claimC9_witness :
    (((Protocol.mk ⟨1, 0, 0, 0, 0⟩ false defaultSettings 0 []
            false).rendez_vous 7 ClientState.Waiting).2.rendez_vous 7
              ClientState.Waiting).2.events
      = ((Protocol.mk ⟨1, 0, 0, 0, 0⟩ false defaultSettings 0 []
            false).rendez_vous 7 ClientState.Waiting).2.events
          ++ [Event.RunSelection 1] :=
  (claimC9 (Protocol.mk ⟨1, 0, 0, 0, 0⟩ false defaultSettings 0 [] false)
    7).2.2.2.2.2.2 1 (by decide)

/-- Number of `Waiting` candidates the selection loop consumes from a
candidate list, given the selection budget: the loop stops at the
budget, skips non-`Waiting` candidates without spending budget, and
stops when the list is exhausted. -/
def consumedWaiting : Nat → List (Nat × ClientState) → Nat
  | 0, _ => 0
  | _ + 1, [] => 0
  | n + 1, (_, ClientState.Waiting) :: rest => consumedWaiting n rest + 1
  | n + 1, (_, _) :: rest => consumedWaiting (n + 1) rest

/-- Exact counter accounting for the selection loop: when the `waiting`
counter covers every `Waiting` candidate consumed, each consumption
moves exactly one client from `waiting` to `selected` and the other
counters are untouched (no `u32` underflow occurs). -/
theorem selectLoop_counters (n : Nat) (l : List (Nat × ClientState))
    (p : Protocol) :
    consumedWaiting n l ≤ p.counters.waiting →
    (selectLoop n l p).counters.waiting
        = p.counters.waiting - consumedWaiting n l
      ∧ (selectLoop n l p).counters.selected
          = p.counters.selected + consumedWaiting n l
      ∧ (selectLoop n l p).counters.done = p.counters.done
      ∧ (selectLoop n l p).counters.done_and_inactive
          = p.counters.done_and_inactive
      ∧ (selectLoop n l p).counters.ignored = p.counters.ignored := by
  induction n, l, p using selectLoop.induct with
  | case1 p l =>
      intro _
      simp [selectLoop, consumedWaiting]
  | case2 p n =>
      intro _
      simp [selectLoop, consumedWaiting]
  | case3 p n id rest ih =>
      intro h
      rw [consumedWaiting] at h ⊢
      rw [selectLoop]
      have hsub : u32SubOne p.counters.waiting = p.counters.waiting - 1 := by
        unfold u32SubOne
        rw [if_neg (by omega)]
      rw [hsub] at ih ⊢
      obtain ⟨e1, e2, e3, e4, e5⟩ := ih (by
        show consumedWaiting n rest ≤ p.counters.waiting - 1
        omega)
      refine ⟨?_, ?_, ?_, ?_, ?_⟩
      · rw [e1]
        show p.counters.waiting - 1 - consumedWaiting n rest = _
        omega
      · rw [e2]
        show p.counters.selected + 1 + consumedWaiting n rest = _
        omega
      · rw [e3]
        rfl
      · rw [e4]
        rfl
      · rw [e5]
        rfl
  | case4 p n id st rest hne ih =>
      intro h
      have heq : consumedWaiting (n + 1) ((id, st) :: rest)
          = consumedWaiting (n + 1) rest := by
        cases st
        · rfl
        · exact absurd rfl hne
        · rfl
        · rfl
        · rfl
        · rfl
      have hloop : selectLoop (n + 1) ((id, st) :: rest) p
          = selectLoop (n + 1) rest p := by
        cases st
        · rfl
        · exact absurd rfl hne
        · rfl
        · rfl
        · rfl
        · rfl
      rw [heq] at h ⊢
      rw [hloop]
      exact ih h

/-- C10: every counter-decrementing entry point carries the unstated
precondition that the matching counter is positive —
`rendez_vous(id, Selected)` needs `selected ≥ 1`, `heartbeat_timeout`
on Waiting/Selected/Ignored needs the corresponding counter, and
`select` needs `waiting` to cover every Waiting candidate it consumes —
and under those preconditions the `u32` subtractions are exact (no
underflow); without them the subtraction wraps to `2^32 - 1` instead of
saturating at zero. -/
theorem claimC10 :
    (∀ (p : Protocol) (id : Nat), p.is_training_complete = false →
        1 ≤ p.counters.selected →
        ((p.rendez_vous id ClientState.Selected).2).counters.selected
          = p.counters.selected - 1)
      ∧ (∀ (p : Protocol) (id : Nat), 1 ≤ p.counters.waiting →
          (p.heartbeat_timeout id ClientState.Waiting).map
              (fun q => q.counters.waiting)
            = some (p.counters.waiting - 1))
      ∧ (∀ (p : Protocol) (id : Nat), 1 ≤ p.counters.selected →
          (p.heartbeat_timeout id ClientState.Selected).map
              (fun q => q.counters.selected)
            = some (p.counters.selected - 1))
      ∧ (∀ (p : Protocol) (id : Nat), 1 ≤ p.counters.ignored →
          (p.heartbeat_timeout id ClientState.Ignored).map
              (fun q => q.counters.ignored)
            = some (p.counters.ignored - 1))
      ∧ (∀ (p : Protocol) (candidates : List (Nat × ClientState)) (n : Nat),
          p.number_of_clients_to_select = some n →
          consumedWaiting n candidates ≤ p.counters.waiting →
          (p.select candidates).counters.waiting
              = p.counters.waiting - consumedWaiting n candidates
            ∧ (p.select candidates).counters.selected
              = p.counters.selected + consumedWaiting n candidates)
      ∧ (∀ (p : Protocol) (id : Nat), p.is_training_complete = false →
          p.counters.selected = 0 →
          ((p.rendez_vous id ClientState.Selected).2).counters.selected
            = 2 ^ 32 - 1) := by
  refine ⟨?_, ?_, ?_, ?_, ?_, ?_⟩
  · intro p id hc hs
    unfold Protocol.rendez_vous
    rw [if_neg (by rw [hc]; exact Bool.false_ne_true)]
    dsimp only
    rw [maybe_start_selection_counters]
    show u32SubOne p.counters.selected = _
    unfold u32SubOne
    rw [if_neg (by omega)]
  · intro p id hs
    unfold Protocol.heartbeat_timeout
    simp only [Option.map_some', Option.some.injEq]
    rw [maybe_start_selection_counters]
    show u32SubOne p.counters.waiting = _
    unfold u32SubOne
    rw [if_neg (by omega)]
  · intro p id hs
    unfold Protocol.heartbeat_timeout
    simp only [Option.map_some', Option.some.injEq]
    rw [maybe_start_selection_counters]
    show u32SubOne p.counters.selected = _
    unfold u32SubOne
    rw [if_neg (by omega)]
  · intro p id hs
    unfold Protocol.heartbeat_timeout
    simp only [Option.map_some', Option.some.injEq]
    rw [maybe_start_selection_counters]
    show u32SubOne p.counters.ignored = _
    unfold u32SubOne
    rw [if_neg (by omega)]
  · intro p candidates n hpol hcov
    unfold Protocol.select
    rw [hpol]
    dsimp only
    rw [maybe_start_selection_counters]
    obtain ⟨e1, e2, _, _, _⟩ := selectLoop_counters n candidates p hcov
    exact ⟨e1, e2⟩
  · intro p id hc hs
    unfold Protocol.rendez_vous
    rw [if_neg (by rw [hc]; exact Bool.false_ne_true)]
    dsimp only
    rw [maybe_start_selection_counters]
    show u32SubOne p.counters.selected = _
    rw [hs]
    rfl

/-- Witness for C10: exact decrements at the boundary value 1 for each
listed entry point, one covered `select` consumption, and the wrap to
`2^32 - 1` when `rendez_vous(id, Selected)` runs with `selected = 0`. -/
theorem claimC10_witness :
    (((Protocol.mk ⟨0, 1, 0, 0, 0⟩ false defaultSettings 0 []
          false).rendez_vous 4 ClientState.Selected).2.counters.selected = 0)
      ∧ (((Protocol.mk ⟨1, 0, 0, 0, 0⟩ false defaultSettings 0 []
            false).heartbeat_timeout 4 ClientState.Waiting).map
              (fun q => q.counters.waiting) = some 0)
      ∧ ((((Protocol.mk ⟨1, 0, 0, 0, 0⟩ false defaultSettings 0 []
            false).select [(4, ClientState.Waiting)]).counters.waiting = 0)
          ∧ (((Protocol.mk ⟨1, 0, 0, 0, 0⟩ false defaultSettings 0 []
              false).select [(4, ClientState.Waiting)]).counters.selected = 1))
      ∧ (((Protocol.mk ⟨0, 0, 0, 0, 0⟩ false defaultSettings 0 []
            false).rendez_vous 4 ClientState.Selected).2.counters.selected
          = 2 ^ 32 - 1) :=
  ⟨claimC10.1 (Protocol.mk ⟨0, 1, 0, 0, 0⟩ false defaultSettings 0 [] false)
      4 rfl (by decide),
    claimC10.2.1 (Protocol.mk ⟨1, 0, 0, 0, 0⟩ false defaultSettings 0 []
      false) 4 (by decide),
    claimC10.2.2.2.2.1 (Protocol.mk ⟨1, 0, 0, 0, 0⟩ false defaultSettings 0
      [] false) [(4, ClientState.Waiting)] 1 (by decide) (by decide),
    claimC10.2.2.2.2.2 (Protocol.mk ⟨0, 0, 0, 0, 0⟩ false defaultSettings 0
      [] false) 4 rfl rfl⟩

/-- The guard of `end_training`: with `is_training_complete` or
`waiting_for_aggregation` set the request is discarded and the state is
untouched. -/
theorem end_training_guard_noop (p : Protocol) (id : Nat) (success : Bool)
    (client_state : ClientState)
    (h : p.is_training_complete = true ∨ p.waiting_for_aggregation = true) :
    p.end_training id success client_state = p := by
  unfold Protocol.end_training
  rcases h with h | h <;> simp [h]

/-- `rendez_vous` never touches the flags, the round index or the
settings. -/
theorem rendez_vous_frame (p : Protocol) (id : Nat) (st : ClientState) :
    ((p.rendez_vous id st).2).is_training_complete = p.is_training_complete
      ∧ ((p.rendez_vous id st).2).waiting_for_aggregation
          = p.waiting_for_aggregation
      ∧ ((p.rendez_vous id st).2).current_round = p.current_round
      ∧ ((p.rendez_vous id st).2).settings = p.settings := by
  unfold Protocol.rendez_vous
  by_cases hc : p.is_training_complete
  · rw [if_pos hc]
    exact ⟨rfl, rfl, rfl, rfl⟩
  · rw [if_neg hc]
    cases st <;>
      exact ⟨maybe_start_selection_is_training_complete _,
        maybe_start_selection_waiting_for_aggregation _,
        maybe_start_selection_current_round _,
        maybe_start_selection_settings _⟩

/-- `heartbeat` never touches the flags, the round index or the
settings. -/
theorem heartbeat_frame (p : Protocol) (id : Nat) (st : ClientState) :
    ((p.heartbeat id st).2).is_training_complete = p.is_training_complete
      ∧ ((p.heartbeat id st).2).waiting_for_aggregation
          = p.waiting_for_aggregation
      ∧ ((p.heartbeat id st).2).current_round = p.current_round
      ∧ ((p.heartbeat id st).2).settings = p.settings := by
  unfold Protocol.heartbeat
  by_cases hc : p.is_training_complete
  · rw [if_pos hc]
    exact ⟨rfl, rfl, rfl, rfl⟩
  · rw [if_neg hc]
    cases st <;> exact ⟨rfl, rfl, rfl, rfl⟩

/-- A non-panicking `heartbeat_timeout` never touches the flags, the
round index or the settings. -/
theorem heartbeat_timeout_frame (p : Protocol) (id : Nat) (st : ClientState)
    (q : Protocol) (h : p.heartbeat_timeout id st = some q) :
    q.is_training_complete = p.is_training_complete
      ∧ q.waiting_for_aggregation = p.waiting_for_aggregation
      ∧ q.current_round = p.current_round
      ∧ q.settings = p.settings := by
  unfold Protocol.heartbeat_timeout at h
  cases st
  · exact Option.noConfusion h
  all_goals try
    (rw [Option.some.injEq] at h
     subst h
     exact ⟨maybe_start_selection_is_training_complete _,
       maybe_start_selection_waiting_for_aggregation _,
       maybe_start_selection_current_round _,
       maybe_start_selection_settings _⟩)
  exact Option.noConfusion h

/-- `select` never touches the flags, the round index or the
settings. -/
theorem select_frame (p : Protocol) (candidates : List (Nat × ClientState)) :
    (p.select candidates).is_training_complete = p.is_training_complete
      ∧ (p.select candidates).waiting_for_aggregation
          = p.waiting_for_aggregation
      ∧ (p.select candidates).current_round = p.current_round
      ∧ (p.select candidates).settings = p.settings := by
  unfold Protocol.select
  cases hsel : p.number_of_clients_to_select with
  | none =>
      exact ⟨maybe_start_selection_is_training_complete _,
        maybe_start_selection_waiting_for_aggregation _,
        maybe_start_selection_current_round _,
        maybe_start_selection_settings _⟩
  | some total_needed =>
      dsimp only
      obtain ⟨f1, f2, f3, f4⟩ := selectLoop_frame total_needed candidates p
      refine ⟨?_, ?_, ?_, ?_⟩
      · rw [maybe_start_selection_is_training_complete]
        exact f1
      · rw [maybe_start_selection_waiting_for_aggregation]
        exact f2
      · rw [maybe_start_selection_current_round]
        exact f3
      · rw [maybe_start_selection_settings]
        exact f4

/-- `end_training` never touches `is_training_complete`, the round
index or the settings (only `waiting_for_aggregation`, the counters and
the queue). -/
theorem end_training_frame (p : Protocol) (id : Nat) (s : Bool)
    (st : ClientState) :
    (p.end_training id s st).is_training_complete = p.is_training_complete
      ∧ (p.end_training id s st).current_round = p.current_round
      ∧ (p.end_training id s st).settings = p.settings := by
  unfold Protocol.end_training
  split
  · exact ⟨rfl, rfl, rfl⟩
  split
  · dsimp only
    by_cases hs : s = true
    · rw [if_pos hs]
      split
      · exact ⟨maybe_start_selection_is_training_complete _,
          maybe_start_selection_current_round _,
          maybe_start_selection_settings _⟩
      · exact ⟨maybe_start_selection_is_training_complete _,
          maybe_start_selection_current_round _,
          maybe_start_selection_settings _⟩
    · rw [if_neg hs]
      exact ⟨maybe_start_selection_is_training_complete _,
        maybe_start_selection_current_round _,
        maybe_start_selection_settings _⟩
  · exact ⟨rfl, rfl, rfl⟩

/-- `end_training` can only raise `waiting_for_aggregation` when
`is_training_complete` is false. -/
theorem end_training_wfa (p : Protocol) (id : Nat) (s : Bool)
    (st : ClientState)
    (h : (p.end_training id s st).waiting_for_aggregation = true) :
    p.waiting_for_aggregation = true ∨ p.is_training_complete = false := by
  by_cases hc : p.is_training_complete = true
  · by_cases hw : p.waiting_for_aggregation = true
    · exact Or.inl hw
    · rw [end_training_guard_noop p id s st (Or.inl hc)] at h
      exact Or.inl h
  · exact Or.inr (by revert hc; cases p.is_training_complete <;> simp)

/-- `end_aggregation` keeps the settings. -/
theorem end_aggregation_settings (p : Protocol) (s : Bool) :
    (p.end_aggregation s).settings = p.settings := by
  unfold Protocol.end_aggregation
  split
  · rfl
  dsimp only
  by_cases hs : s = true
  · rw [if_pos hs]
    split
    · rfl
    · rw [maybe_start_selection_settings]
      rfl
  · rw [if_neg hs]
    split
    · rfl
    · rw [maybe_start_selection_settings]

/-- `end_aggregation` never lowers the round index. -/
theorem end_aggregation_round_le (p : Protocol) (s : Bool) :
    p.current_round ≤ (p.end_aggregation s).current_round := by
  unfold Protocol.end_aggregation
  split
  · exact le_refl _
  dsimp only
  by_cases hs : s = true
  · rw [if_pos hs]
    split
    · exact Nat.le_succ _
    · rw [maybe_start_selection_current_round]
      exact Nat.le_succ _
  · rw [if_neg hs]
    split
    · exact le_refl _
    · rw [maybe_start_selection_current_round]

/-- The inductive invariant behind the round bound: while training is
incomplete the round index is strictly below `settings.rounds`, once
complete it equals it, and an ongoing aggregation implies training is
not complete. -/
def roundInv (p : Protocol) : Prop :=
  (p.is_training_complete = true → p.current_round = p.settings.rounds)
    ∧ (p.is_training_complete = false → p.current_round < p.settings.rounds)
    ∧ (p.waiting_for_aggregation = true → p.is_training_complete = false)

/-- A state change that fixes both flags, the round and the settings
preserves the round invariant. -/
theorem roundInv_of_frame (p q : Protocol)
    (h1 : q.is_training_complete = p.is_training_complete)
    (h2 : q.waiting_for_aggregation = p.waiting_for_aggregation)
    (h3 : q.current_round = p.current_round)
    (h4 : q.settings = p.settings)
    (hinv : roundInv p) : roundInv q := by
  obtain ⟨a, b, c⟩ := hinv
  refine ⟨?_, ?_, ?_⟩
  · intro h
    rw [h1] at h
    rw [h3, h4]
    exact a h
  · intro h
    rw [h1] at h
    rw [h3, h4]
    exact b h
  · intro h
    rw [h2] at h
    rw [h1]
    exact c h

/-- `end_aggregation` preserves the round invariant. -/
theorem end_aggregation_roundInv (p : Protocol) (s : Bool)
    (hinv : roundInv p) : roundInv (p.end_aggregation s) := by
  obtain ⟨a, b, c⟩ := hinv
  unfold Protocol.end_aggregation
  split
  · exact ⟨a, b, c⟩
  next hw =>
    have hwfa : p.waiting_for_aggregation = true := by
      revert hw
      cases p.waiting_for_aggregation <;> simp
    have hcf : p.is_training_complete = false := c hwfa
    have hlt : p.current_round < p.settings.rounds := b hcf
    dsimp only
    by_cases hs : s = true
    · rw [if_pos hs]
      split
      next heq =>
        refine ⟨?_, ?_, ?_⟩
        · intro _
          exact heq
        · intro hfalse
          exact Bool.noConfusion hfalse
        · intro hwq
          exact Bool.noConfusion hwq
      next hne =>
        refine ⟨?_, ?_, ?_⟩
        · intro hcq
          rw [maybe_start_selection_is_training_complete] at hcq
          have hpc : p.is_training_complete = true := hcq
          rw [hcf] at hpc
          exact Bool.noConfusion hpc
        · intro _
          rw [maybe_start_selection_current_round,
            maybe_start_selection_settings]
          show p.current_round + 1 < p.settings.rounds
          have hne2 : ¬(p.current_round + 1 = p.settings.rounds) := hne
          omega
        · intro hwq
          rw [maybe_start_selection_waiting_for_aggregation] at hwq
          exact Bool.noConfusion hwq
    · rw [if_neg hs]
      split
      next heq =>
        have heq2 : p.current_round = p.settings.rounds := heq
        omega
      next hne =>
        refine ⟨?_, ?_, ?_⟩
        · intro hcq
          rw [maybe_start_selection_is_training_complete] at hcq
          have hpc : p.is_training_complete = true := hcq
          rw [hcf] at hpc
          exact Bool.noConfusion hpc
        · intro _
          rw [maybe_start_selection_current_round,
            maybe_start_selection_settings]
          exact hlt
        · intro hwq
          rw [maybe_start_selection_waiting_for_aggregation] at hwq
          exact Bool.noConfusion hwq

/-- Every non-panicking entry-point call preserves the round
invariant. -/
theorem roundInv_step (inp : Input) (p q : Protocol)
    (h : applyInput inp p = some q) (hinv : roundInv p) : roundInv q := by
  cases inp with
  | rendezVous id st =>
      rw [applyInput, Option.some.injEq] at h
      subst h
      obtain ⟨f1, f2, f3, f4⟩ := rendez_vous_frame p id st
      exact roundInv_of_frame p _ f1 f2 f3 f4 hinv
  | heartbeat id st =>
      rw [applyInput, Option.some.injEq] at h
      subst h
      obtain ⟨f1, f2, f3, f4⟩ := heartbeat_frame p id st
      exact roundInv_of_frame p _ f1 f2 f3 f4 hinv
  | heartbeatTimeout id st =>
      rw [applyInput] at h
      obtain ⟨f1, f2, f3, f4⟩ := heartbeat_timeout_frame p id st q h
      exact roundInv_of_frame p _ f1 f2 f3 f4 hinv
  | startTraining st =>
      rw [applyInput, Option.some.injEq] at h
      subst h
      exact hinv
  | endTraining id s st =>
      rw [applyInput, Option.some.injEq] at h
      subst h
      obtain ⟨f1, f2, f3⟩ := end_training_frame p id s st
      refine ⟨?_, ?_, ?_⟩
      · intro hc
        rw [f1] at hc
        rw [f2, f3]
        exact hinv.1 hc
      · intro hc
        rw [f1] at hc
        rw [f2, f3]
        exact hinv.2.1 hc
      · intro hw
        rw [f1]
        rcases end_training_wfa p id s st hw with hpw | hpc
        · exact hinv.2.2 hpw
        · exact hpc
  | endAggregation s =>
      rw [applyInput, Option.some.injEq] at h
      subst h
      exact end_aggregation_roundInv p s hinv
  | select candidates =>
      rw [applyInput, Option.some.injEq] at h
      subst h
      obtain ⟨f1, f2, f3, f4⟩ := select_frame p candidates
      exact roundInv_of_frame p _ f1 f2 f3 f4 hinv

/-- Every non-panicking entry-point call keeps the settings. -/
theorem applyInput_settings (inp : Input) (p q : Protocol)
    (h : applyInput inp p = some q) : q.settings = p.settings := by
  cases inp with
  | rendezVous id st =>
      rw [applyInput, Option.some.injEq] at h
      subst h
      exact (rendez_vous_frame p id st).2.2.2
  | heartbeat id st =>
      rw [applyInput, Option.some.injEq] at h
      subst h
      exact (heartbeat_frame p id st).2.2.2
  | heartbeatTimeout id st =>
      rw [applyInput] at h
      exact (heartbeat_timeout_frame p id st q h).2.2.2
  | startTraining st =>
      rw [applyInput, Option.some.injEq] at h
      subst h
      rfl
  | endTraining id s st =>
      rw [applyInput, Option.some.injEq] at h
      subst h
      exact (end_training_frame p id s st).2.2
  | endAggregation s =>
      rw [applyInput, Option.some.injEq] at h
      subst h
      exact end_aggregation_settings p s
  | select candidates =>
      rw [applyInput, Option.some.injEq] at h
      subst h
      exact (select_frame p candidates).2.2.2

/-- Running a sequence of entry-point calls preserves the round
invariant. -/
theorem roundInv_run (l : List Input) (p q : Protocol)
    (h : runInputs l p = some q) (hinv : roundInv p) : roundInv q := by
  induction l generalizing p with
  | nil =>
      rw [runInputs, Option.some.injEq] at h
      subst h
      exact hinv
  | cons inp rest ih =>
      rw [runInputs] at h
      cases happ : applyInput inp p with
      | none =>
          rw [happ] at h
          exact Option.noConfusion h
      | some r =>
          rw [happ] at h
          exact ih r h (roundInv_step inp p r happ hinv)

/-- Running a sequence of entry-point calls keeps the settings. -/
theorem runInputs_settings (l : List Input) (p q : Protocol)
    (h : runInputs l p = some q) : q.settings = p.settings := by
  induction l generalizing p with
  | nil =>
      rw [runInputs, Option.some.injEq] at h
      subst h
      rfl
  | cons inp rest ih =>
      rw [runInputs] at h
      cases happ : applyInput inp p with
      | none =>
          rw [happ] at h
          exact Option.noConfusion h
      | some r =>
          rw [happ] at h
          exact (ih r h).trans (applyInput_settings inp p r happ)

/-- C6: the round index never decreases across any entry-point call,
and along every run from a freshly constructed driver (with the spec's
positive `rounds` setting) it stays bounded by `settings.rounds`. -/
theorem claimC6 :
    (∀ (inp : Input) (p q : Protocol), applyInput inp p = some q →
        p.current_round ≤ q.current_round)
      ∧ (∀ (settings : FederatedLearningSettings) (l : List Input)
          (q : Protocol), 1 ≤ settings.rounds →
          runInputs l (Protocol.new settings) = some q →
          q.current_round ≤ settings.rounds) := by
  constructor
  · intro inp p q h
    cases inp with
    | rendezVous id st =>
        rw [applyInput, Option.some.injEq] at h
        subst h
        exact le_of_eq (rendez_vous_frame p id st).2.2.1.symm
    | heartbeat id st =>
        rw [applyInput, Option.some.injEq] at h
        subst h
        exact le_of_eq (heartbeat_frame p id st).2.2.1.symm
    | heartbeatTimeout id st =>
        rw [applyInput] at h
        exact le_of_eq (heartbeat_timeout_frame p id st q h).2.2.1.symm
    | startTraining st =>
        rw [applyInput, Option.some.injEq] at h
        subst h
        exact le_refl _
    | endTraining id s st =>
        rw [applyInput, Option.some.injEq] at h
        subst h
        exact le_of_eq (end_training_frame p id s st).2.1.symm
    | endAggregation s =>
        rw [applyInput, Option.some.injEq] at h
        subst h
        exact end_aggregation_round_le p s
    | select candidates =>
        rw [applyInput, Option.some.injEq] at h
        subst h
        exact le_of_eq (select_frame p candidates).2.2.1.symm
  · intro settings l q hr hrun
    have hinv0 : roundInv (Protocol.new settings) := by
      refine ⟨?_, ?_, ?_⟩
      · intro h
        exact Bool.noConfusion h
      · intro _
        show (0 : Nat) < settings.rounds
        omega
      · intro h
        exact Bool.noConfusion h
    obtain ⟨a, b, _⟩ := roundInv_run l (Protocol.new settings) q hrun hinv0
    have hset : q.settings = settings :=
      runInputs_settings l (Protocol.new settings) q hrun
    cases hcq : q.is_training_complete
    · have hlt := b hcq
      rw [hset] at hlt
      omega
    · have heq := a hcq
      rw [hset] at heq
      omega

/-- Witness for C6: a successful aggregation advances the round from 0
to 1 (never down), and a one-call run from a fresh driver stays within
the two configured rounds. -/
theorem claimC6_witness :
    ((Protocol.mk ⟨0, 0, 0, 0, 0⟩ false defaultSettings 0 []
          true).current_round
        ≤ ((Protocol.mk ⟨0, 0, 0, 0, 0⟩ false defaultSettings 0 []
            true).end_aggregation true).current_round)
      ∧ (((Protocol.new defaultSettings).rendez_vous 0
            ClientState.Unknown).2.current_round ≤ defaultSettings.rounds) :=
  ⟨claimC6.1 (Input.endAggregation true)
      (Protocol.mk ⟨0, 0, 0, 0, 0⟩ false defaultSettings 0 [] true) _ rfl,
    claimC6.2 defaultSettings [Input.rendezVous 0 ClientState.Unknown]
      (((Protocol.new defaultSettings).rendez_vous 0 ClientState.Unknown).2)
      (by decide) rfl⟩
